import Mathlib

/-!
Verification development for the solaredge Modbus register library.

The Python sources are embedded shallowly:

* `solaredge/register.py` — `HoldingRegister` with its `decode`, `raw_value`
  and `value` members.  Python machine values are modelled as `Int`/`Nat`
  with explicit truncation; Python floats are modelled as exact rationals
  (the bit-pattern of an IEEE binary32 value determines an exact rational
  for finite patterns).  A Python `None` result is `Option.none`.
* `solaredge/device.py` — `SolaredgeDevice.group_registers`,
  `read_groups`, `update` and `_init_registers`.  The Python `dict` is
  modelled as an association list where insertion removes any previous
  binding for the key (lookup-equivalent to a Python dict).
* `solaredge/inverter.py` — the full `SolaredgeInverter` register map.
* `main.py` — the report loop that filters scale-factor registers.

The device back-reference held by each register is replaced by passing the
owning device's `data_cache` explicitly to `raw_value`/`value`.
-/

/-- `mcm.DATATYPE` members used by the repository (pymodbus client mixin). -/
inductive DataType where
  | uint16
  | int16
  | uint32
  | int32
  | uint64
  | int64
  | float32
  | strType
deriving DecidableEq, Inhabited

/-- A value decoded from raw register words.  Python ints become `intVal`,
Python floats become `ratVal` (exact rational value of the bit pattern) or
`floatSpecial` for non-finite bit patterns, strings become `strVal`, and the
`return registers` fallback of `decode` becomes `rawRegs`. -/
inductive DecodedValue where
  | intVal (n : Int)
  | ratVal (q : ℚ)
  | floatSpecial (bits : Nat)
  | strVal (s : String)
  | rawRegs (rs : List Nat)
deriving DecidableEq, Inhabited

/-- `HoldingRegister.__init__` fields (`register.py`).  The `device` back
reference is dropped; the cache is passed explicitly where needed. -/
structure HoldingRegister where
  address : Nat
  data_type : DataType
  length : Nat
  word_order : String
  label : Option String
  units : Option String
  key : Option String
  sf_key : Option String
deriving DecidableEq, Inhabited

/-- `struct.pack(f"{format_char}H", r & 0xFFFF)`: one 16-bit word packed as
two bytes.  `big = true` is format char `>`, `big = false` is `<`. -/
def packWord (big : Bool) (w : Nat) : List Nat :=
  let w := w % 65536
  if big then [w / 256, w % 256] else [w % 256, w / 256]

/-- The `byte_buffer` of `HoldingRegister.decode`: the packed words joined in
input order (`register.py` lines 147–151). -/
def byteBuffer (big : Bool) (registers : List Nat) : List Nat :=
  (registers.map (packWord big)).flatten

/-- `struct.unpack` of an unsigned integer covering the whole buffer, with
endianness `big` (`>` when true, `<` when false). -/
def unpackNat (big : Bool) (buf : List Nat) : Nat :=
  if big then buf.foldl (fun a b => a * 256 + b) 0
  else buf.foldr (fun b a => a * 256 + b) 0

/-- Two's-complement reinterpretation of a `bits`-bit unsigned value as a
signed one (what `struct.unpack` does for formats `h`/`i`). -/
def toSigned (bits : Nat) (v : Nat) : Int :=
  if v < 2 ^ (bits - 1) then (v : Int) else (v : Int) - 2 ^ bits

/-- The byte width of the `struct` format chosen by the numeric `mapping`
dict of `decode`; `none` for types absent from that dict (`mapping.get`). -/
def byteWidth : DataType → Option Nat
  | .int16 => some 2
  | .uint16 => some 2
  | .int32 => some 4
  | .uint32 => some 4
  | .float32 => some 4
  | .uint64 => some 8
  | .int64 => none
  | .strType => none

/-- Whether the chosen `struct` format is signed (`h` and `i`). -/
def isSigned : DataType → Bool
  | .int16 => true
  | .int32 => true
  | _ => false

/-- `HoldingRegister.INVALID_VALUES`: SunSpec "not implemented" sentinel bit
patterns per data type.  Types absent from the Python dict map to `[]`. -/
def invalidValues : DataType → List Int
  | .int16 => [0x8000, -0x8000]
  | .uint16 => [0xFFFF]
  | .int32 => [0x80000000, -0x80000000]
  | .uint32 => [0xFFFFFFFF]
  | .int64 => [0x8000000000000000, -0x8000000000000000]
  | .uint64 => [0xFFFFFFFFFFFFFFFF]
  | .float32 => [0x7FC00000]
  | .strType => []

/-- Multiplication of exact rationals (`mkRat` normalizes the result; this
is extensionally the library multiplication, written out so that it
evaluates by kernel reduction). -/
def qmul (a b : ℚ) : ℚ := mkRat (a.num * b.num) (a.den * b.den)

/-- Addition of exact rationals (same normal-form construction as `qmul`). -/
def qadd (a b : ℚ) : ℚ := mkRat (a.num * b.den + b.num * a.den) (a.den * b.den)

/-- Negation of an exact rational. -/
def qneg (a : ℚ) : ℚ := mkRat (-a.num) a.den

/-- Subtraction of exact rationals. -/
def qsub (a b : ℚ) : ℚ := qadd a (qneg b)

/-- The exact value of an IEEE-754 binary32 bit pattern.  Finite patterns
give their exact rational value; `exp = 255` patterns (inf/NaN) are kept
abstract as `floatSpecial`. -/
def float32Value (bits : Nat) : DecodedValue :=
  let sign : Nat := bits / 2 ^ 31
  let ex : Nat := (bits / 2 ^ 23) % 256
  let frac : Nat := bits % 2 ^ 23
  if ex = 255 then .floatSpecial bits
  else
    let mag : ℚ :=
      if ex = 0 then mkRat (frac : Int) (2 ^ 149)
      else if 150 ≤ ex then mkRat (((2 ^ 23 + frac) * 2 ^ (ex - 150) : ℕ) : Int) 1
      else mkRat ((2 ^ 23 + frac : ℕ) : Int) (2 ^ (150 - ex))
    .ratVal (if sign = 1 then qneg mag else mag)

/-- Valid second byte of a UTF-8 sequence led by `b` (rules out overlong
encodings and surrogates, as Python's decoder does). -/
def utf8Cont2OK (b c : Nat) : Prop :=
  (b = 224 ∧ 160 ≤ c ∧ c ≤ 191) ∨
  (225 ≤ b ∧ b ≤ 236 ∧ 128 ≤ c ∧ c ≤ 191) ∨
  (b = 237 ∧ 128 ≤ c ∧ c ≤ 159) ∨
  (238 ≤ b ∧ b ≤ 239 ∧ 128 ≤ c ∧ c ≤ 191) ∨
  (b = 240 ∧ 144 ≤ c ∧ c ≤ 191) ∨
  (241 ≤ b ∧ b ≤ 243 ∧ 128 ≤ c ∧ c ≤ 191) ∨
  (b = 244 ∧ 128 ≤ c ∧ c ≤ 143)

instance (b c : Nat) : Decidable (utf8Cont2OK b c) := by
  unfold utf8Cont2OK; infer_instance

/-- UTF-8 decoding with `errors="ignore"` semantics: an invalid byte (or a
lead byte whose continuation bytes are wrong) is skipped; a well-formed but
truncated trailing sequence is dropped. -/
def utf8Ignore : List Nat → List Char
  | [] => []
  | b :: rest =>
    if b < 128 then Char.ofNat b :: utf8Ignore rest
    else if 194 ≤ b ∧ b ≤ 223 then
      let c := rest.headD 0
      if rest.length = 0 then []
      else if 128 ≤ c ∧ c ≤ 191 then
        Char.ofNat ((b - 192) * 64 + (c - 128)) :: utf8Ignore (rest.drop 1)
      else utf8Ignore rest
    else if 224 ≤ b ∧ b ≤ 239 then
      let c := rest.headD 0
      let d := (rest.drop 1).headD 0
      if rest.length = 0 then []
      else if ¬ utf8Cont2OK b c then utf8Ignore rest
      else if rest.length = 1 then []
      else if 128 ≤ d ∧ d ≤ 191 then
        Char.ofNat ((b - 224) * 4096 + (c - 128) * 64 + (d - 128)) ::
          utf8Ignore (rest.drop 2)
      else utf8Ignore (rest.drop 1)
    else if 240 ≤ b ∧ b ≤ 244 then
      let c := rest.headD 0
      let d := (rest.drop 1).headD 0
      let e := (rest.drop 2).headD 0
      if rest.length = 0 then []
      else if ¬ utf8Cont2OK b c then utf8Ignore rest
      else if rest.length = 1 then []
      else if ¬ (128 ≤ d ∧ d ≤ 191) then utf8Ignore (rest.drop 1)
      else if rest.length = 2 then []
      else if 128 ≤ e ∧ e ≤ 191 then
        Char.ofNat ((b - 240) * 262144 + (c - 128) * 4096 +
            (d - 128) * 64 + (e - 128)) :: utf8Ignore (rest.drop 3)
      else utf8Ignore (rest.drop 2)
    else utf8Ignore rest
termination_by l => l.length
decreasing_by all_goals (simp [List.length_drop]; try omega)

/-- Python `str.strip` whitespace set restricted to its ASCII members. -/
def isPySpace (c : Char) : Bool :=
  c = ' ' || c = '\t' || c = '\n' || c = '\r' || c = Char.ofNat 11 || c = Char.ofNat 12

/-- `byte_buffer.decode("utf-8", errors="ignore").split("\0")[0].strip()` -/
def decodeStringBytes (buf : List Nat) : String :=
  let cs := (utf8Ignore buf).takeWhile (fun c => c ≠ Char.ofNat 0)
  ⟨((cs.dropWhile isPySpace).reverse.dropWhile isPySpace).reverse⟩

/-- The STRING branch of `decode`: the trimmed string, or `None` when it is
empty or every raw byte is `0xFF`. -/
def decodeStringBuffer (buf : List Nat) : Option DecodedValue :=
  let val := decodeStringBytes buf
  if val ≠ "" ∧ ¬ buf.all (fun b => b = 0xFF) then some (.strVal val) else none

/-- `HoldingRegister.decode` (`register.py` lines 143–190), as a function of
the register's `data_type` and `word_order` and the raw word list. -/
def decodeWords (dt : DataType) (order : String) (registers : List Nat) :
    Option DecodedValue :=
  if registers.isEmpty then none
  else
    let big := order = "big"
    let buf := byteBuffer big registers
    if dt = .strType then decodeStringBuffer buf
    else
      match byteWidth dt with
      | none => some (.rawRegs registers)
      | some w =>
        if buf.length = w then
          let bits := unpackNat big buf
          let raw : Int := if isSigned dt then toSigned (8 * w) bits else (bits : Int)
          let check : Int := if dt = .float32 then (bits : Int) else raw
          if check ∈ invalidValues dt then none
          else if dt = .float32 then some (float32Value bits)
          else some (.intVal raw)
        else none

/-- `HoldingRegister.decode` as a method. -/
def HoldingRegister.decode (r : HoldingRegister) (registers : List Nat) :
    Option DecodedValue :=
  decodeWords r.data_type r.word_order registers

/-- `SolaredgeDevice.data_cache`: a Python dict from register key (which may
be `None`) to a decoded value (which may itself be `None`). -/
abbrev Cache := List (Option String × Option DecodedValue)

/-- Python dict assignment `d[k] = v`: any previous binding of `k` is
replaced (the model keeps the new binding at the end; lookups agree with a
Python dict). -/
def dinsert (k : Option String) (v : Option DecodedValue) (d : Cache) : Cache :=
  d.filter (fun p => decide (p.1 ≠ k)) ++ [(k, v)]

/-- Dict membership-with-value: `d[k]` when `k in d`, else `none`. -/
def dictFind (d : Cache) (k : Option String) : Option (Option DecodedValue) :=
  (d.find? (fun p => decide (p.1 = k))).map (fun p => p.2)

/-- Python `d.get(k)`: `None` both when the key is missing and when the
stored value is `None`. -/
def cacheGet (d : Cache) (k : Option String) : Option DecodedValue :=
  (dictFind d k).getD none

/-- The keys of a dict. -/
def dkeys (d : Cache) : List (Option String) := d.map (fun p => p.1)

/-- Insert every binding of `ps` into `d` in order (used both for building
`decoded_data` and for `dict.update`). -/
def insertAll (d : Cache) : Cache → Cache
  | [] => d
  | p :: ps => insertAll (dinsert p.1 p.2 d) ps

/-- Python `self.data_cache.update(raw_data)` (`device.py` line 40). -/
def dictUpdate (cache rawData : Cache) : Cache :=
  insertAll cache rawData

/-- `HoldingRegister.raw_value` (`register.py` lines 95–98): the latest raw
decoded value from the device cache, looked up under the register's key. -/
def HoldingRegister.raw_value (r : HoldingRegister) (cache : Cache) :
    Option DecodedValue :=
  cacheGet cache r.key

/-- Python truthiness of the optional string `self.sf_key`:
`None` and `""` are falsy. -/
def strTruthy : Option String → Bool
  | none => false
  | some s => !s.isEmpty

/-- Python `10 ** sf` as an exact rational (`int` for `sf >= 0`, `float`
for `sf < 0`; floats are modelled exactly). -/
def pow10 (e : Int) : ℚ :=
  if 0 ≤ e then mkRat (10 ^ e.toNat) 1 else mkRat 1 (10 ^ (-e).toNat)

/-- Round-half-even to an integer, the rounding used by Python `round`. -/
def roundHalfEven (q : ℚ) : ℤ :=
  if qsub q (mkRat q.floor 1) = mkRat 1 2 then
    (if q.floor % 2 = 0 then q.floor else q.floor + 1)
  else (qadd q (mkRat 1 2)).floor

/-- Python `round(x, n)` for `n ≥ 0` decimal places, in exact arithmetic. -/
def roundToPlaces (x : ℚ) (n : Nat) : ℚ :=
  mkRat (roundHalfEven (qmul x (mkRat ((10 : Int) ^ n) 1))) (10 ^ n)

/-- `val = val * (10**sf)` followed by `if sf < 0: val = round(val, abs(sf))`
on an exact-rational value. -/
def scaleValue (v : ℚ) (e : Int) : ℚ :=
  let x := qmul v (pow10 e)
  if e < 0 then roundToPlaces x (-e).toNat else x

/-- Numeric view of a decoded value (`int` or finite `float`). -/
def DecodedValue.toRat? : DecodedValue → Option ℚ
  | .intVal n => some (mkRat n 1)
  | .ratVal q => some q
  | _ => none

/-- `val * (10**sf)` with the subsequent rounding, preserving Python's
`int`/`float` result type: an `int` base with `sf ≥ 0` stays an `int`; any
negative `sf` produces a `float`.  Non-numeric bases raise `TypeError`. -/
def applyScale : DecodedValue → Int → Except String DecodedValue
  | .intVal n, e =>
    if e < 0 then .ok (.ratVal (scaleValue (mkRat n 1) e))
    else .ok (.intVal (n * 10 ^ e.toNat))
  | .ratVal q, e =>
    if e < 0 then .ok (.ratVal (scaleValue q e))
    else .ok (.ratVal (qmul q (mkRat ((10 : Int) ^ e.toNat) 1)))
  | _, _ => .error "TypeError"

instance {ε α : Type} [DecidableEq ε] [DecidableEq α] : DecidableEq (Except ε α) :=
  fun x y =>
    match x, y with
    | .ok a, .ok b =>
      if h : a = b then isTrue (by rw [h]) else isFalse (fun hh => h (Except.ok.inj hh))
    | .error a, .error b =>
      if h : a = b then isTrue (by rw [h]) else isFalse (fun hh => h (Except.error.inj hh))
    | .ok _, .error _ => isFalse (fun hh => Except.noConfusion hh)
    | .error _, .ok _ => isFalse (fun hh => Except.noConfusion hh)

/-- `HoldingRegister.value` (`register.py` lines 100–115): the scaled value
computed from the device cache.  A scale-factor cache entry that is not an
`int` is outside the model and reported as an error (in the repository every
scale-factor register is INT16, so its decoded value is always an `int`). -/
def HoldingRegister.value (r : HoldingRegister) (cache : Cache) :
    Except String (Option DecodedValue) :=
  match r.raw_value cache with
  | none => .ok none
  | some val =>
    if strTruthy r.sf_key then
      match cacheGet cache r.sf_key with
      | none => .ok (some val)
      | some sf =>
        match sf with
        | .intVal e => (applyScale val e).map some
        | _ => .error "NonIntegerScaleFactor"
    else .ok (some val)

/-- The sort key of `sorted(self.registers.values(), key=lambda r: r.address)`. -/
def addrLE (a b : HoldingRegister) : Prop := a.address ≤ b.address

instance : DecidableRel addrLE := fun a b => Nat.decLe a.address b.address

instance : IsTotal HoldingRegister addrLE := ⟨fun a b => Nat.le_total a.address b.address⟩

instance : IsTrans HoldingRegister addrLE := ⟨fun _ _ _ => Nat.le_trans⟩

/-- `sorted(..., key=lambda r: r.address)` (`device.py` line 56). -/
def sortByAddress (regs : List HoldingRegister) : List HoldingRegister :=
  List.insertionSort addrLE regs

/-- The loop body of `group_registers` (`device.py` lines 62–83).  `cur` is
`current_group` (in order), `curLen` is `current_group_length`, `acc` is
`groups`. -/
def groupGo (maxLen : Nat) : List HoldingRegister → List HoldingRegister →
    Nat → List (List HoldingRegister) → List (List HoldingRegister)
  | [], cur, _, acc => acc ++ [cur]
  | next :: rest, cur, curLen, acc =>
    let last := cur.getLastD default
    let is_adjacent : Bool := last.address + last.length == next.address
    let is_same_type : Bool := last.data_type == next.data_type
    let is_same_order : Bool := last.word_order == next.word_order
    let fits_in_limit : Bool := decide (curLen + next.length ≤ maxLen)
    if is_adjacent && is_same_type && is_same_order && fits_in_limit then
      groupGo maxLen rest (cur ++ [next]) (curLen + next.length) acc
    else
      groupGo maxLen rest [next] next.length (acc ++ [cur])

/-- `SolaredgeDevice.group_registers` (`device.py` lines 42–85).  The device's
register dict is passed as its list of values; the default
`max_read_length` in the source is 120. -/
def group_registers (regs : List HoldingRegister) (max_read_length : Nat) :
    List (List HoldingRegister) :=
  match sortByAddress regs with
  | [] => []
  | r :: rs => groupGo max_read_length rs [r] r.length []

/-- Result of `client.read_holding_registers`: a raised transport exception,
an error response (`response.isError()`), or a word list. -/
inductive ClientResult where
  | raise
  | errorResp
  | ok (registers : List Nat)
deriving DecidableEq, Inhabited

/-- Whether the read failed (exception or Modbus error response). -/
def ClientResult.failed : ClientResult → Bool
  | .ok _ => false
  | _ => true

/-- `group[0].address` (with an irrelevant default for the impossible empty
group). -/
def groupStart (g : List HoldingRegister) : Nat := (g.headD default).address

/-- `sum(reg.length for reg in group)`. -/
def groupCount (g : List HoldingRegister) : Nat := (g.map (fun r => r.length)).sum

/-- The per-group decode loop of `read_groups` (`device.py` lines 119–125):
slice the raw buffer per register and decode each slice. -/
def decodeGroup (g : List HoldingRegister) (buffer : List Nat) (cursor : Nat) :
    List (Option String × Option DecodedValue) :=
  match g with
  | [] => []
  | reg :: rest =>
    (reg.key, reg.decode ((buffer.drop cursor).take reg.length)) ::
      decodeGroup rest buffer (cursor + reg.length)

/-- The group loop of `read_groups` (`device.py` lines 95–125): a failed
group is skipped, a successful one has its decoded slices written into
`decoded_data` (`acc`). -/
def readGroupsLoop (client : Nat → Nat → Nat → ClientResult) (devId : Nat) :
    List (List HoldingRegister) → Cache → Cache
  | [], acc => acc
  | g :: gs, acc =>
    match client (groupStart g) (groupCount g) devId with
    | .raise => readGroupsLoop client devId gs acc
    | .errorResp => readGroupsLoop client devId gs acc
    | .ok buf => readGroupsLoop client devId gs (insertAll acc (decodeGroup g buf 0))

/-- `SolaredgeDevice.read_groups` (`device.py` lines 87–126): groups are the
result of `group_registers` at the default limit of 120. -/
def SolaredgeDevice.read_groups (regs : List HoldingRegister)
    (client : Nat → Nat → Nat → ClientResult) (devId : Nat) : Cache :=
  readGroupsLoop client devId (group_registers regs 120) []

/-- `SolaredgeDevice.update` (`device.py` lines 34–40): bulk read, then
`self.data_cache.update(raw_data)`. -/
def SolaredgeDevice.update (regs : List HoldingRegister) (cache : Cache)
    (client : Nat → Nat → Nat → ClientResult) (devId : Nat) : Cache :=
  dictUpdate cache (SolaredgeDevice.read_groups regs client devId)

/-- `SolaredgeDevice._init_registers` (`device.py` lines 25–32): give every
register its dict key, and auto-link `K` to `K + "_sf"` when such a register
exists and no explicit link was set. -/
def init_registers (regs : List (String × HoldingRegister)) :
    List (String × HoldingRegister) :=
  regs.map (fun p =>
    let withKey := { p.2 with key := some p.1 }
    let sf_candidate := p.1 ++ "_sf"
    if withKey.sf_key.isNone && regs.any (fun q => q.1 == sf_candidate) then
      (p.1, { withKey with sf_key := some sf_candidate })
    else (p.1, withKey))

/-- Lookup of `self.registers[k]` in the modelled register dict. -/
def findReg (regs : List (String × HoldingRegister)) (k : String) :
    Option HoldingRegister :=
  (regs.find? (fun p => p.1 == k)).map (fun p => p.2)

/-- Python `k.endswith(suffix)`, as a suffix check on the character lists. -/
def strEndsWith (k suffix : String) : Bool :=
  List.isSuffixOf suffix.data k.data

/-- The report loop of `main.py` (lines 25–30): every register item whose
key does not end in `"_sf"` is printed; the rest are skipped. -/
def reportItems (regs : List (String × HoldingRegister)) :
    List (String × HoldingRegister) :=
  regs.filter (fun p => !(strEndsWith p.1 "_sf"))

/-- The register map built by `SolaredgeInverter.__init__`
(`inverter.py` lines 13–197).  Every `HoldingRegister` there is constructed
with positional arguments `(address, data_type, self, length, word_order,
label, units)` — `key` and `sf_key` keep their default `None` — and the
constructor never calls `_init_registers`. -/
def inverterRegisters : List (String × HoldingRegister) :=
  [ ("c_manufacturer", ⟨0x9C44, .strType, 16, "big", some "Manufacturer", none, none, none⟩),
    ("c_model", ⟨0x9C54, .strType, 16, "big", some "Model", none, none, none⟩),
    ("c_version", ⟨0x9C6C, .strType, 8, "big", some "Version", none, none, none⟩),
    ("c_serialnumber", ⟨0x9C74, .strType, 16, "big", some "Serial Number", none, none, none⟩),
    ("c_deviceaddress", ⟨0x9C84, .uint16, 1, "big", some "Device Address", none, none, none⟩),
    ("c_sunspec_did", ⟨0x9C85, .uint16, 1, "big", some "SunSpec DID", none, none, none⟩),
    ("c_sunspec_length", ⟨0x9C86, .uint16, 1, "big", some "SunSpec Length", none, none, none⟩),
    ("i_ac_current", ⟨0x9C87, .uint16, 1, "big", some "AC Current", some "A", none, none⟩),
    ("i_ac_currenta", ⟨0x9C88, .uint16, 1, "big", some "AC Current Phase A", some "A", none, none⟩),
    ("i_ac_currentb", ⟨0x9C89, .uint16, 1, "big", some "AC Current Phase B", some "A", none, none⟩),
    ("i_ac_currentc", ⟨0x9C8A, .uint16, 1, "big", some "AC Current Phase C", some "A", none, none⟩),
    ("i_ac_current_sf", ⟨0x9C8B, .int16, 1, "big", some "AC Current Scale Factor", none, none, none⟩),
    ("i_ac_voltageab", ⟨0x9C8C, .uint16, 1, "big", some "AC Voltage Phase AB", some "V", none, none⟩),
    ("i_ac_voltagebc", ⟨0x9C8D, .uint16, 1, "big", some "AC Voltage Phase BC", some "V", none, none⟩),
    ("i_ac_voltageca", ⟨0x9C8E, .uint16, 1, "big", some "AC Voltage Phase CA", some "V", none, none⟩),
    ("i_ac_voltagean", ⟨0x9C8F, .uint16, 1, "big", some "AC Voltage Phase AN", some "V", none, none⟩),
    ("i_ac_voltagebn", ⟨0x9C90, .uint16, 1, "big", some "AC Voltage Phase BN", some "V", none, none⟩),
    ("i_ac_voltagecn", ⟨0x9C91, .uint16, 1, "big", some "AC Voltage Phase CN", some "V", none, none⟩),
    ("i_ac_voltage_sf", ⟨0x9C92, .int16, 1, "big", some "AC Voltage Scale Factor", none, none, none⟩),
    ("i_ac_power", ⟨0x9C93, .int16, 1, "big", some "AC Power", some "W", none, none⟩),
    ("i_ac_power_sf", ⟨0x9C94, .int16, 1, "big", some "AC Power Scale Factor", none, none, none⟩),
    ("i_ac_frequency", ⟨0x9C95, .uint16, 1, "big", some "AC Frequency", some "Hz", none, none⟩),
    ("i_ac_frequency_sf", ⟨0x9C96, .int16, 1, "big", some "AC Frequency Scale Factor", none, none, none⟩),
    ("i_ac_va", ⟨0x9C97, .int16, 1, "big", some "AC VA", some "VA", none, none⟩),
    ("i_ac_va_sf", ⟨0x9C98, .int16, 1, "big", some "AC VA Scale Factor", none, none, none⟩),
    ("i_ac_var", ⟨0x9C99, .int16, 1, "big", some "AC VAR", some "VAR", none, none⟩),
    ("i_ac_var_sf", ⟨0x9C9A, .int16, 1, "big", some "AC VAR Scale Factor", none, none, none⟩),
    ("i_ac_pf", ⟨0x9C9B, .int16, 1, "big", some "AC PF", some "%", none, none⟩),
    ("i_ac_pf_sf", ⟨0x9C9C, .int16, 1, "big", some "AC PF Scale Factor", none, none, none⟩),
    ("i_ac_energy_wh", ⟨0x9C9D, .int32, 2, "big", some "AC Energy Wh", some "Wh", none, none⟩),
    ("i_ac_energy_wh_sf", ⟨0x9C9F, .int16, 1, "big", some "AC Energy Wh Scale Factor", none, none, none⟩),
    ("i_dc_current", ⟨0x9CA0, .uint16, 1, "big", some "DC Current", some "A", none, none⟩),
    ("i_dc_current_sf", ⟨0x9CA1, .int16, 1, "big", some "DC Current Scale Factor", none, none, none⟩),
    ("i_dc_voltage", ⟨0x9CA2, .uint16, 1, "big", some "DC Voltage", some "V", none, none⟩),
    ("i_dc_voltage_sf", ⟨0x9CA3, .int16, 1, "big", some "DC Voltage Scale Factor", none, none, none⟩),
    ("i_dc_power", ⟨0x9CA4, .int16, 1, "big", some "DC Power", some "W", none, none⟩),
    ("i_dc_power_sf", ⟨0x9CA5, .int16, 1, "big", some "DC Power Scale Factor", none, none, none⟩),
    ("i_temp_sink", ⟨0x9CA7, .int16, 1, "big", some "Heat Sink Temperature", some "°C", none, none⟩),
    ("i_temp_sf", ⟨0x9CAA, .int16, 1, "big", some "Heat Sink Temperature Scale Factor", none, none, none⟩),
    ("i_status", ⟨0x9CAB, .uint16, 1, "big", some "Status", none, none, none⟩),
    ("i_status_vendor", ⟨0x9CAC, .uint16, 1, "big", some "Status Vendor", none, none, none⟩) ]

/-- Modelled from the spec (section 4.2 step 2 and the `byteOrder` entry of
the data model), for comparison with the source's buffer construction: every
word packed big-endian, with `byteOrder` ordering whole words only (`little`
reverses the word sequence). -/
def specByteBuffer (big : Bool) (registers : List Nat) : List Nat :=
  ((if big then registers else registers.reverse).map (packWord true)).flatten

/-! ### Association-list dictionary lemmas -/

theorem dictFind_nil (k : Option String) : dictFind [] k = none := rfl

theorem dictFind_cons (p : Option String × Option DecodedValue) (d : Cache)
    (k : Option String) :
    dictFind (p :: d) k = if p.1 = k then some p.2 else dictFind d k := by
  by_cases h : p.1 = k <;> simp [dictFind, List.find?_cons, h]

theorem dinsert_cons (k : Option String) (v : Option DecodedValue)
    (p : Option String × Option DecodedValue) (d : Cache) :
    dinsert k v (p :: d) =
      if p.1 = k then dinsert k v d else p :: dinsert k v d := by
  by_cases h : p.1 = k <;> simp [dinsert, List.filter_cons, h]

theorem dictFind_dinsert (d : Cache) (k k' : Option String) (v : Option DecodedValue) :
    dictFind (dinsert k v d) k' = if k' = k then some v else dictFind d k' := by
  induction d with
  | nil =>
    by_cases h : k' = k
    · subst h; simp [dinsert, dictFind, List.find?_cons]
    · have h2 : ¬ (k = k') := fun hh => h hh.symm
      simp [dinsert, dictFind, List.find?_cons, h, h2]
  | cons p d ih =>
    rw [dinsert_cons]
    by_cases hp : p.1 = k
    · rw [if_pos hp, ih, dictFind_cons]
      by_cases h : k' = k
      · simp [h]
      · have : p.1 ≠ k' := by rw [hp]; exact fun hh => h hh.symm
        simp [h, this]
    · rw [if_neg hp, dictFind_cons, ih, dictFind_cons]
      by_cases hp' : p.1 = k'
      · have : ¬ k' = k := by rw [← hp']; exact fun hh => hp hh
        simp [hp', this]
      · simp [hp']

theorem dictFind_eq_none_iff (d : Cache) (k : Option String) :
    dictFind d k = none ↔ k ∉ dkeys d := by
  induction d with
  | nil => simp [dictFind, dkeys]
  | cons p d ih =>
    rw [dictFind_cons]
    by_cases h : p.1 = k
    · simp [dkeys, h]
    · have h2 : ¬ k = p.1 := fun hh => h hh.symm
      simp only [dkeys, List.map_cons, List.mem_cons] at ih ⊢
      simp [h, ih, h2]

theorem mem_dkeys_dinsert (d : Cache) (k k' : Option String) (v : Option DecodedValue) :
    k' ∈ dkeys (dinsert k v d) ↔ k' = k ∨ k' ∈ dkeys d := by
  induction d with
  | nil => simp [dinsert, dkeys]
  | cons p d ih =>
    rw [dinsert_cons]
    by_cases hp : p.1 = k
    · rw [if_pos hp, ih]
      simp only [dkeys, List.map_cons, List.mem_cons]
      constructor
      · tauto
      · rintro (h | h | h)
        · exact Or.inl h
        · exact Or.inl (by rw [h, hp])
        · exact Or.inr h
    · rw [if_neg hp]
      simp only [dkeys, List.map_cons, List.mem_cons] at ih ⊢
      rw [ih]
      tauto

theorem nodup_dkeys_dinsert (d : Cache) (k : Option String) (v : Option DecodedValue)
    (h : (dkeys d).Nodup) : (dkeys (dinsert k v d)).Nodup := by
  induction d with
  | nil => simp [dinsert, dkeys]
  | cons p d ih =>
    simp only [dkeys, List.map_cons, List.nodup_cons] at h
    rw [dinsert_cons]
    by_cases hp : p.1 = k
    · rw [if_pos hp]; exact ih h.2
    · rw [if_neg hp]
      have hk : dkeys (p :: dinsert k v d) = p.1 :: dkeys (dinsert k v d) := rfl
      rw [hk, List.nodup_cons]
      refine ⟨?_, ih h.2⟩
      rw [mem_dkeys_dinsert]
      rintro (hh | hh)
      · exact hp hh
      · exact h.1 hh

theorem dictFind_insertAll_not_mem (ps : Cache) :
    ∀ (d : Cache) (k : Option String), k ∉ ps.map (fun p => p.1) →
      dictFind (insertAll d ps) k = dictFind d k := by
  induction ps with
  | nil => intro d k _; rfl
  | cons q ps ih =>
    intro d k hk
    simp only [List.map_cons, List.mem_cons] at hk
    push_neg at hk
    rw [insertAll, ih _ _ hk.2, dictFind_dinsert, if_neg hk.1]

theorem mem_dkeys_insertAll (ps : Cache) :
    ∀ (d : Cache) (k : Option String),
      k ∈ dkeys (insertAll d ps) ↔ k ∈ dkeys d ∨ k ∈ ps.map (fun p => p.1) := by
  induction ps with
  | nil => intro d k; simp [insertAll]
  | cons q ps ih =>
    intro d k
    rw [insertAll, ih, mem_dkeys_dinsert]
    simp only [List.map_cons, List.mem_cons]
    tauto

theorem nodup_dkeys_insertAll (ps : Cache) :
    ∀ d : Cache, (dkeys d).Nodup → (dkeys (insertAll d ps)).Nodup := by
  induction ps with
  | nil => intro d h; exact h
  | cons q ps ih => intro d h; exact ih _ (nodup_dkeys_dinsert _ _ _ h)

theorem dictFind_eq_of_mem_nodup (ps : Cache) (k : Option String)
    (v : Option DecodedValue) (hnd : (ps.map (fun p => p.1)).Nodup)
    (hm : (k, v) ∈ ps) : dictFind ps k = some v := by
  induction ps with
  | nil => cases hm
  | cons q ps ih =>
    simp only [List.map_cons, List.nodup_cons] at hnd
    rcases List.mem_cons.mp hm with hq | hq
    · subst hq; simp [dictFind_cons]
    · have hne : q.1 ≠ k := by
        intro hh
        exact hnd.1 (hh ▸ (List.mem_map.mpr ⟨(k, v), hq, rfl⟩))
      rw [dictFind_cons, if_neg hne]
      exact ih hnd.2 hq

theorem dictFind_insertAll_mem (ps : Cache) :
    ∀ (d : Cache) (k : Option String) (v : Option DecodedValue),
      (ps.map (fun p => p.1)).Nodup → (k, v) ∈ ps →
      dictFind (insertAll d ps) k = some v := by
  induction ps with
  | nil => intro _ _ _ _ hm; cases hm
  | cons q ps ih =>
    intro d k v hnd hm
    simp only [List.map_cons, List.nodup_cons] at hnd
    rcases List.mem_cons.mp hm with hq | hq
    · subst hq
      rw [insertAll, dictFind_insertAll_not_mem ps _ _ hnd.1, dictFind_dinsert, if_pos rfl]
    · exact ih _ _ _ hnd.2 hq

/-! ### Grouping lemmas -/

theorem sortByAddress_perm (l : List HoldingRegister) : (sortByAddress l).Perm l :=
  List.perm_insertionSort addrLE l

theorem sortByAddress_sorted (l : List HoldingRegister) :
    (sortByAddress l).Sorted addrLE :=
  List.sorted_insertionSort addrLE l

theorem groupGo_flatten (m : Nat) :
    ∀ (rest cur : List HoldingRegister) (curLen : Nat)
      (acc : List (List HoldingRegister)),
      (groupGo m rest cur curLen acc).flatten = acc.flatten ++ cur ++ rest := by
  intro rest
  induction rest with
  | nil => intro cur curLen acc; simp [groupGo]
  | cons next rest ih =>
    intro cur curLen acc
    rw [groupGo]
    split
    · rw [ih]; simp
    · rw [ih]; simp

theorem groupGo_ne_nil (m : Nat) :
    ∀ (rest cur : List HoldingRegister) (curLen : Nat)
      (acc : List (List HoldingRegister)),
      cur ≠ [] → (∀ g ∈ acc, g ≠ []) →
      ∀ g ∈ groupGo m rest cur curLen acc, g ≠ [] := by
  intro rest
  induction rest with
  | nil =>
    intro cur curLen acc hcur hacc g hg
    rw [groupGo] at hg
    rcases List.mem_append.mp hg with h | h
    · exact hacc g h
    · rw [List.mem_singleton.mp h]; exact hcur
  | cons next rest ih =>
    intro cur curLen acc hcur hacc g hg
    rw [groupGo] at hg
    split at hg
    · exact ih _ _ _ (by simp) hacc g hg
    · refine ih _ _ _ (by simp) ?_ g hg
      intro g' hg'
      rcases List.mem_append.mp hg' with h | h
      · exact hacc g' h
      · rw [List.mem_singleton.mp h]; exact hcur

theorem group_registers_flatten (regs : List HoldingRegister) (m : Nat) :
    (group_registers regs m).flatten = sortByAddress regs := by
  unfold group_registers
  cases h : sortByAddress regs with
  | nil => simp
  | cons r rs => rw [groupGo_flatten]; simp

theorem group_registers_ne_nil (regs : List HoldingRegister) (m : Nat) :
    ∀ g ∈ group_registers regs m, g ≠ [] := by
  unfold group_registers
  cases h : sortByAddress regs with
  | nil => simp
  | cons r rs => exact groupGo_ne_nil m rs [r] r.length [] (by simp) (by simp)

/-! ### Read-loop lemmas -/

theorem decodeGroup_keys (g : List HoldingRegister) : ∀ (buf : List Nat) (c : Nat),
    (decodeGroup g buf c).map (fun p => p.1) = g.map (fun r => r.key) := by
  induction g with
  | nil => intro _ _; rfl
  | cons r g ih => intro buf c; simp [decodeGroup, ih]

theorem readGroupsLoop_find_untouched (client : Nat → Nat → Nat → ClientResult)
    (devId : Nat) :
    ∀ (gs : List (List HoldingRegister)) (acc : Cache) (k : Option String),
      (∀ g ∈ gs, (client (groupStart g) (groupCount g) devId).failed = true ∨
        k ∉ g.map (fun r => r.key)) →
      dictFind (readGroupsLoop client devId gs acc) k = dictFind acc k := by
  intro gs
  induction gs with
  | nil => intro acc k _; rfl
  | cons g gs ih =>
    intro acc k h
    rw [readGroupsLoop]
    cases hc : client (groupStart g) (groupCount g) devId with
    | raise => exact ih _ _ (fun g' hg' => h g' (List.mem_cons_of_mem _ hg'))
    | errorResp => exact ih _ _ (fun g' hg' => h g' (List.mem_cons_of_mem _ hg'))
    | ok buf =>
      have hk : k ∉ g.map (fun r => r.key) := by
        rcases h g (List.mem_cons_self _ _) with hf | hk
        · rw [hc] at hf; cases hf
        · exact hk
      rw [ih _ _ (fun g' hg' => h g' (List.mem_cons_of_mem _ hg'))]
      exact dictFind_insertAll_not_mem _ _ _ (by rw [decodeGroup_keys]; exact hk)

theorem readGroupsLoop_find_success (client : Nat → Nat → Nat → ClientResult)
    (devId : Nat) :
    ∀ (gs : List (List HoldingRegister)) (acc : Cache) (g : List HoldingRegister)
      (buf : List Nat),
      g ∈ gs → client (groupStart g) (groupCount g) devId = .ok buf →
      (gs.flatten.map (fun r => r.key)).Nodup →
      ∀ e ∈ decodeGroup g buf 0,
        dictFind (readGroupsLoop client devId gs acc) e.1 = some e.2 := by
  intro gs
  induction gs with
  | nil => intro _ _ _ hg; cases hg
  | cons g1 gs ih =>
    intro acc g buf hg hc hnd e he
    have hnd' : (g1.map (fun r => r.key)).Nodup ∧
        (gs.flatten.map (fun r => r.key)).Nodup ∧
        (g1.map (fun r => r.key)).Disjoint (gs.flatten.map (fun r => r.key)) := by
      have : ((g1 :: gs).flatten.map (fun r => r.key)) =
          g1.map (fun r => r.key) ++ gs.flatten.map (fun r => r.key) := by simp
      rw [this, List.nodup_append] at hnd
      exact hnd
    rcases List.mem_cons.mp hg with rfl | hg'
    · rw [readGroupsLoop, hc]
      have hkey : e.1 ∈ g.map (fun r => r.key) := by
        rw [← decodeGroup_keys g buf 0]
        exact List.mem_map.mpr ⟨e, he, rfl⟩
      rw [readGroupsLoop_find_untouched client devId gs _ e.1 (fun g' hg' =>
        Or.inr (fun hmem => hnd'.2.2 hkey (by
          rcases List.mem_map.mp hmem with ⟨r, hr, hrk⟩
          exact List.mem_map.mpr ⟨r, List.mem_flatten.mpr ⟨g', hg', hr⟩, hrk⟩)))]
      have hetup : ((e.1, e.2) : Option String × Option DecodedValue) ∈
          decodeGroup g buf 0 := by simpa using he
      exact dictFind_insertAll_mem _ _ _ _ (by rw [decodeGroup_keys]; exact hnd'.1) hetup
    · rw [readGroupsLoop]
      cases hc1 : client (groupStart g1) (groupCount g1) devId with
      | raise => exact ih _ _ _ hg' hc hnd'.2.1 e he
      | errorResp => exact ih _ _ _ hg' hc hnd'.2.1 e he
      | ok buf1 => exact ih _ _ _ hg' hc hnd'.2.1 e he

theorem mem_dkeys_readGroupsLoop (client : Nat → Nat → Nat → ClientResult)
    (devId : Nat) :
    ∀ (gs : List (List HoldingRegister)) (acc : Cache) (k : Option String),
      k ∈ dkeys (readGroupsLoop client devId gs acc) ↔
        k ∈ dkeys acc ∨ ∃ g ∈ gs,
          (client (groupStart g) (groupCount g) devId).failed = false ∧
          k ∈ g.map (fun r => r.key) := by
  intro gs
  induction gs with
  | nil => intro acc k; simp [readGroupsLoop]
  | cons g1 gs ih =>
    intro acc k
    rw [readGroupsLoop]
    cases hc : client (groupStart g1) (groupCount g1) devId with
    | raise =>
      rw [ih]
      simp only [List.mem_cons]
      constructor
      · rintro (h | ⟨g, hg, hgood, hk⟩)
        · exact Or.inl h
        · exact Or.inr ⟨g, Or.inr hg, hgood, hk⟩
      · rintro (h | ⟨g, (rfl | hg), hgood, hk⟩)
        · exact Or.inl h
        · rw [hc] at hgood; cases hgood
        · exact Or.inr ⟨g, hg, hgood, hk⟩
    | errorResp =>
      rw [ih]
      simp only [List.mem_cons]
      constructor
      · rintro (h | ⟨g, hg, hgood, hk⟩)
        · exact Or.inl h
        · exact Or.inr ⟨g, Or.inr hg, hgood, hk⟩
      · rintro (h | ⟨g, (rfl | hg), hgood, hk⟩)
        · exact Or.inl h
        · rw [hc] at hgood; cases hgood
        · exact Or.inr ⟨g, hg, hgood, hk⟩
    | ok buf =>
      rw [ih, mem_dkeys_insertAll, decodeGroup_keys]
      simp only [List.mem_cons]
      constructor
      · rintro ((h | h) | ⟨g, hg, hgood, hk⟩)
        · exact Or.inl h
        · exact Or.inr ⟨g1, Or.inl rfl, by rw [hc]; rfl, h⟩
        · exact Or.inr ⟨g, Or.inr hg, hgood, hk⟩
      · rintro (h | ⟨g, (rfl | hg), hgood, hk⟩)
        · exact Or.inl (Or.inl h)
        · exact Or.inl (Or.inr hk)
        · exact Or.inr ⟨g, hg, hgood, hk⟩

theorem nodup_dkeys_readGroupsLoop (client : Nat → Nat → Nat → ClientResult)
    (devId : Nat) :
    ∀ (gs : List (List HoldingRegister)) (acc : Cache),
      (dkeys acc).Nodup → (dkeys (readGroupsLoop client devId gs acc)).Nodup := by
  intro gs
  induction gs with
  | nil => intro acc h; exact h
  | cons g1 gs ih =>
    intro acc h
    rw [readGroupsLoop]
    cases hc : client (groupStart g1) (groupCount g1) devId with
    | raise => exact ih _ h
    | errorResp => exact ih _ h
    | ok buf => exact ih _ (nodup_dkeys_insertAll _ _ h)

/-! ### Helper lemmas for the device-session claims -/

theorem dictFind_mem (d : Cache) (k : Option String) (v : Option DecodedValue)
    (h : dictFind d k = some v) : (k, v) ∈ d := by
  unfold dictFind at h
  cases hf : d.find? (fun p => decide (p.1 = k)) with
  | none => rw [hf] at h; cases h
  | some p =>
    rw [hf] at h
    have hm := List.mem_of_find?_eq_some hf
    have hp := List.find?_some hf
    have h2 : p.2 = v := by simpa using h
    have hp2 : p.1 = k := by simpa using hp
    obtain ⟨p1, p2⟩ := p
    simp only at hp2 h2
    rw [← hp2, ← h2]
    exact hm

theorem nodup_flatten_key_unique_group :
    ∀ gs : List (List HoldingRegister),
      (gs.flatten.map (fun r => r.key)).Nodup →
      ∀ g ∈ gs, ∀ g' ∈ gs, ∀ k : Option String,
        k ∈ g.map (fun r => r.key) → k ∈ g'.map (fun r => r.key) → g = g' := by
  intro gs
  induction gs with
  | nil => intro _ g hg; cases hg
  | cons h t ih =>
    intro hnd g hg g' hg' k hk hk'
    have hsplit : (h.map (fun r => r.key)).Nodup ∧
        (t.flatten.map (fun r => r.key)).Nodup ∧
        (h.map (fun r => r.key)).Disjoint (t.flatten.map (fun r => r.key)) := by
      have he : ((h :: t).flatten.map (fun r => r.key)) =
          h.map (fun r => r.key) ++ t.flatten.map (fun r => r.key) := by simp
      rw [he, List.nodup_append] at hnd
      exact hnd
    have hmem_flat : ∀ g'' ∈ t, ∀ k' : Option String, k' ∈ g''.map (fun r => r.key) →
        k' ∈ t.flatten.map (fun r => r.key) := by
      intro g'' hg'' k' hk''
      rcases List.mem_map.mp hk'' with ⟨r, hr, hrk⟩
      exact List.mem_map.mpr ⟨r, List.mem_flatten.mpr ⟨g'', hg'', hr⟩, hrk⟩
    rcases List.mem_cons.mp hg with rfl | hgt
    · rcases List.mem_cons.mp hg' with rfl | hgt'
      · rfl
      · exact absurd (hmem_flat g' hgt' k hk') (fun hh => hsplit.2.2 hk hh)
    · rcases List.mem_cons.mp hg' with rfl | hgt'
      · exact absurd (hmem_flat g hgt k hk) (fun hh => hsplit.2.2 hk' hh)
      · exact ih hsplit.2.1 g hgt g' hgt' k hk hk'

theorem group_registers_key_nodup (regs : List HoldingRegister)
    (hnd : (regs.map (fun r => r.key)).Nodup) :
    ((group_registers regs 120).flatten.map (fun r => r.key)).Nodup := by
  rw [group_registers_flatten]
  exact (List.Perm.nodup_iff ((sortByAddress_perm regs).map (fun r => r.key))).mpr hnd

/-! ### Claim theorems -/

/-- Claim C1: for a 1-word INT16 big-endian register, `decode [0x8000]` is
absent and `decode [100]` is `100`; for a 1-word UINT16 big-endian register,
`decode [0xFFFE]` is `0xFFFE` and `decode [0xFFFF]` is absent; for a 2-word
FLOAT32 big-endian register, `decode [0x42C8, 0x0000]` is `100.0`; and for
every register, `decode` of the empty word list is absent. -/
theorem c1_decode_sentinels_and_examples :
    decodeWords .int16 "big" [0x8000] = none ∧
    decodeWords .int16 "big" [100] = some (.intVal 100) ∧
    decodeWords .uint16 "big" [0xFFFE] = some (.intVal 0xFFFE) ∧
    decodeWords .uint16 "big" [0xFFFF] = none ∧
    decodeWords .float32 "big" [0x42C8, 0x0000] = some (.ratVal 100) ∧
    ∀ r : HoldingRegister, r.decode [] = none := by
  refine ⟨by decide, by decide, by decide, by decide, by decide, fun r => ?_⟩
  simp [HoldingRegister.decode, decodeWords]

/-- The five length-1 descriptors at consecutive addresses 0x100..0x104 of
the grouping example, all with the same data type and word order. -/
def fiveConsecutiveRegs : List HoldingRegister :=
  [ ⟨0x100, .uint16, 1, "big", none, none, none, none⟩,
    ⟨0x101, .uint16, 1, "big", none, none, none, none⟩,
    ⟨0x102, .uint16, 1, "big", none, none, none, none⟩,
    ⟨0x103, .uint16, 1, "big", none, none, none, none⟩,
    ⟨0x104, .uint16, 1, "big", none, none, none, none⟩ ]

/-- Claim C2: a descriptor extends the current group iff adjacency, equal
data type, equal word order, and the accumulated-length bound all hold
(shown for a two-descriptor map, where the accumulated group length is the
first descriptor's length); and for five length-1 descriptors at
0x100..0x104, maxLength 2 gives group sizes [2,2,1] while maxLength 5 gives
one group of size 5. -/
theorem c2_group_extension_condition (a b : HoldingRegister) (m : Nat)
    (hab : a.address < b.address) :
    ((group_registers [a, b] m).length = 1 ↔
      (a.address + a.length = b.address ∧ a.data_type = b.data_type ∧
        a.word_order = b.word_order ∧ a.length + b.length ≤ m)) ∧
    (group_registers fiveConsecutiveRegs 2).map List.length = [2, 2, 1] ∧
    (group_registers fiveConsecutiveRegs 5).map List.length = [5] := by
  refine ⟨?_, by decide, by decide⟩
  have hsort : sortByAddress [a, b] = [a, b] := by
    simp [sortByAddress, List.insertionSort, List.orderedInsert, addrLE,
      Nat.le_of_lt hab]
  have hgr : group_registers [a, b] m = groupGo m [b] [a] a.length [] := by
    unfold group_registers
    rw [hsort]
  rw [hgr, groupGo]
  by_cases h : a.address + a.length = b.address ∧ a.data_type = b.data_type ∧
      a.word_order = b.word_order ∧ a.length + b.length ≤ m
  · rw [if_pos (by simp [List.getLastD, h.1, h.2.1, h.2.2.1, h.2.2.2])]
    simp [groupGo, h]
  · rw [if_neg (by
      simp only [List.getLastD, Bool.and_eq_true, beq_iff_eq, decide_eq_true_eq]
      intro hh
      exact h ⟨hh.1.1.1, hh.1.1.2, hh.1.2, hh.2⟩)]
    simp [groupGo, h]

/-- First register of the C2 witness instance. -/
def c2regA : HoldingRegister := ⟨0x100, .uint16, 1, "big", none, none, none, none⟩

/-- Second register of the C2 witness instance. -/
def c2regB : HoldingRegister := ⟨0x101, .uint16, 1, "big", none, none, none, none⟩

/-- Witness for C2 at two concrete adjacent registers and maxLength 5. -/
theorem c2_group_extension_condition_witness :
    (group_registers [c2regA, c2regB] 5).length = 1 ↔
      (c2regA.address + c2regA.length = c2regB.address ∧
        c2regA.data_type = c2regB.data_type ∧
        c2regA.word_order = c2regB.word_order ∧
        c2regA.length + c2regB.length ≤ 5) :=
  (c2_group_extension_condition c2regA c2regB 5 (by decide)).1

/-- Claim C3: for every descriptor set and positive maxLength the grouping
output is a partition of the input — its concatenation is exactly the
address-sorted input (so every descriptor lands in exactly one group), the
concatenation is address-ascending (so groups and the descriptors inside
each group are address-ordered), every emitted group is nonempty, and the
empty input yields an empty list of groups. -/
theorem c3_grouping_partition (regs : List HoldingRegister) (m : Nat)
    (_hm : 0 < m) :
    (group_registers regs m).flatten = sortByAddress regs ∧
    (sortByAddress regs).Perm regs ∧
    ((group_registers regs m).flatten).Sorted addrLE ∧
    (∀ g ∈ group_registers regs m, g ≠ []) ∧
    group_registers ([] : List HoldingRegister) m = [] := by
  refine ⟨group_registers_flatten regs m, sortByAddress_perm regs, ?_,
    group_registers_ne_nil regs m, rfl⟩
  rw [group_registers_flatten]
  exact sortByAddress_sorted regs

/-- Register for the C3 witness instance. -/
def c3reg : HoldingRegister := ⟨0x200, .int16, 1, "big", none, none, none, none⟩

/-- Witness for C3 at a one-register map and maxLength 1. -/
theorem c3_grouping_partition_witness :
    0 < 1 ∧ (group_registers [c3reg] 1).flatten = sortByAddress [c3reg] :=
  ⟨by decide, (c3_grouping_partition [c3reg] 1 (by decide)).1⟩

/-! ### Unpacking arithmetic lemmas for C5 -/

theorem unpackNat_false_cons (w : Nat) (t : List Nat) :
    unpackNat false (packWord false w ++ t) =
      unpackNat false t * 65536 + w % 65536 := by
  simp [unpackNat, packWord]
  omega

theorem unpackNat_true_append_word (X : List Nat) (w : Nat) :
    unpackNat true (X ++ packWord true w) =
      unpackNat true X * 65536 + w % 65536 := by
  simp [unpackNat, packWord, List.foldl_append]
  omega

/-- Register used by the C4 scale-resolution examples: key `p`, scale-factor
key `p_sf`. -/
def regPC4 : HoldingRegister := ⟨0x100, .int16, 1, "big", none, none, some "p", some "p_sf"⟩

/-- Cache for `resolve(1500, -1)`. -/
def cacheC4a : Cache := [(some "p", some (.intVal 1500)), (some "p_sf", some (.intVal (-1)))]

/-- Cache for `resolve(123, -2)`. -/
def cacheC4b : Cache := [(some "p", some (.intVal 123)), (some "p_sf", some (.intVal (-2)))]

/-- Cache for `resolve(42, absent)`. -/
def cacheC4c : Cache := [(some "p", some (.intVal 42))]

/-- Cache for `resolve(absent, -1)`. -/
def cacheC4d : Cache := [(some "p_sf", some (.intVal (-1)))]

/-- Claim C4: scale-factor resolution returns absent when the cached raw
base is absent, returns the raw value unchanged when the scale-factor
exponent is absent from the cache, and otherwise multiplies by 10^exponent,
rounding to abs(exponent) decimal places for a negative exponent (an `int`
base with a nonnegative exponent stays an integer).  Concretely
`resolve(1500, -1) = 150.0`, `resolve(123, -2) = 1.23`,
`resolve(42, absent) = 42` and `resolve(absent, -1)` is absent.  Python
floats are modelled as exact rationals. -/
theorem c4_scale_factor_resolution :
    (∀ (r : HoldingRegister) (cache : Cache),
      r.raw_value cache = none → r.value cache = .ok none) ∧
    (∀ (r : HoldingRegister) (cache : Cache) (v : DecodedValue),
      r.raw_value cache = some v → cacheGet cache r.sf_key = none →
      r.value cache = .ok (some v)) ∧
    (∀ (r : HoldingRegister) (cache : Cache) (n e : ℤ),
      r.raw_value cache = some (.intVal n) →
      cacheGet cache r.sf_key = some (.intVal e) →
      strTruthy r.sf_key = true → e < 0 →
      r.value cache =
        .ok (some (.ratVal (roundToPlaces (qmul (mkRat n 1) (pow10 e)) (-e).toNat)))) ∧
    (∀ (r : HoldingRegister) (cache : Cache) (n e : ℤ),
      r.raw_value cache = some (.intVal n) →
      cacheGet cache r.sf_key = some (.intVal e) →
      strTruthy r.sf_key = true → 0 ≤ e →
      r.value cache = .ok (some (.intVal (n * 10 ^ e.toNat)))) ∧
    regPC4.value cacheC4a = .ok (some (.ratVal 150)) ∧
    regPC4.value cacheC4b = .ok (some (.ratVal (mkRat 123 100))) ∧
    regPC4.value cacheC4c = .ok (some (.intVal 42)) ∧
    regPC4.value cacheC4d = .ok none := by
  refine ⟨?_, ?_, ?_, ?_, by decide, by decide, by decide, by decide⟩
  · intro r cache h
    simp [HoldingRegister.value, h]
  · intro r cache v h1 h2
    by_cases ht : strTruthy r.sf_key <;> simp [HoldingRegister.value, h1, h2, ht]
  · intro r cache n e h1 h2 ht he
    simp [HoldingRegister.value, h1, h2, ht, applyScale, he, scaleValue, Except.map]
  · intro r cache n e h1 h2 ht he
    simp [HoldingRegister.value, h1, h2, ht, applyScale, Int.not_lt.mpr he, Except.map]

/-- Witness for C4: the absent-base branch at a concrete register/cache. -/
theorem c4_scale_factor_resolution_witness :
    regPC4.value ([] : Cache) = .ok none :=
  c4_scale_factor_resolution.1 regPC4 [] (by decide)

/-- Counterexample to C5 as stated: with word order `little` the decoder's
byte buffer for the single word 0x0102 is [0x02, 0x01] — the bytes inside
the word are swapped — whereas a buffer with big-endian intra-word bytes
and byteOrder acting only on whole-word order would be [0x01, 0x02]. -/
theorem c5_intra_word_order_counterexample :
    byteBuffer false [0x0102] ≠ specByteBuffer false [0x0102] := by decide

/-- Claim C5 (amended): `decode` applies the byteOrder setting as the struct
endianness of every per-word pack and of the final multi-byte unpack.  For
word order `big` the buffer does coincide with the spec's always-big-endian
word packing, and for word order `little` the numeric value obtained by
unpacking the code's buffer little-endian equals the value obtained from
the spec's word-reversed big-endian buffer — so the two disagree only on
the byte buffer itself (hence on STRING decoding), not on numeric values. -/
theorem c5_word_order_semantics :
    (∀ registers : List Nat, byteBuffer true registers = specByteBuffer true registers) ∧
    (∀ registers : List Nat,
      unpackNat false (byteBuffer false registers) =
        unpackNat true (specByteBuffer false registers)) := by
  constructor
  · intro registers
    rfl
  · intro registers
    induction registers with
    | nil => rfl
    | cons w t ih =>
      have h1 : byteBuffer false (w :: t) = packWord false w ++ byteBuffer false t := by
        simp [byteBuffer]
      have h2 : specByteBuffer false (w :: t) =
          specByteBuffer false t ++ packWord true w := by
        simp [specByteBuffer]
      rw [h1, h2, unpackNat_false_cons, unpackNat_true_append_word, ih]

/-- Claim C6: during `update`, a transport exception or a Modbus error
response for a group leaves every cache entry of that group's members
unchanged (stale values retained, absent entries still absent), while every
group whose read succeeds still has all its decoded slices written; the
model of `update` is a total function, so no exception escapes it.
Register keys are assumed pairwise distinct, as in every register map of
the repository once keys are assigned. -/
theorem c6_failed_group_skipped (regs : List HoldingRegister) (cache : Cache)
    (client : Nat → Nat → Nat → ClientResult) (devId : Nat)
    (hnd : (regs.map (fun r => r.key)).Nodup) :
    (∀ g ∈ group_registers regs 120,
      (client (groupStart g) (groupCount g) devId).failed = true →
      ∀ r ∈ g, dictFind (SolaredgeDevice.update regs cache client devId) r.key =
        dictFind cache r.key) ∧
    (∀ g ∈ group_registers regs 120, ∀ buf : List Nat,
      client (groupStart g) (groupCount g) devId = .ok buf →
      ∀ e ∈ decodeGroup g buf 0,
        dictFind (SolaredgeDevice.update regs cache client devId) e.1 = some e.2) := by
  have hndJ := group_registers_key_nodup regs hnd
  constructor
  · intro g hg hfail r hr
    have hnone : dictFind (SolaredgeDevice.read_groups regs client devId) r.key = none := by
      rw [SolaredgeDevice.read_groups,
        readGroupsLoop_find_untouched client devId _ _ _ ?_]
      · rfl
      · intro g' hg'
        by_cases hgg : g = g'
        · subst hgg
          exact Or.inl hfail
        · refine Or.inr (fun hk' => hgg ?_)
          exact nodup_flatten_key_unique_group _ hndJ g hg g' hg' r.key
            (List.mem_map.mpr ⟨r, hr, rfl⟩) hk'
    rw [SolaredgeDevice.update, dictUpdate,
      dictFind_insertAll_not_mem _ _ _ ((dictFind_eq_none_iff _ _).mp hnone)]
  · intro g hg buf hok e he
    have hfound : dictFind (SolaredgeDevice.read_groups regs client devId) e.1 = some e.2 :=
      readGroupsLoop_find_success client devId _ [] g buf hg hok hndJ e he
    have hndK : (dkeys (SolaredgeDevice.read_groups regs client devId)).Nodup :=
      nodup_dkeys_readGroupsLoop client devId _ [] (by simp [dkeys])
    rw [SolaredgeDevice.update, dictUpdate]
    exact dictFind_insertAll_mem _ _ _ _ hndK (dictFind_mem _ _ _ hfound)

/-- First register of the C6 witness instance (its group's read raises). -/
def c6regA : HoldingRegister := ⟨0x100, .uint16, 1, "big", none, none, some "a", none⟩

/-- Second register of the C6 witness instance (its group's read succeeds). -/
def c6regB : HoldingRegister := ⟨0x200, .uint16, 1, "big", none, none, some "b", none⟩

/-- Cache already populated before the C6 witness update. -/
def c6cache : Cache := [(some "a", some (.intVal 99))]

/-- Client that raises for the group at 0x100 and succeeds elsewhere. -/
def c6client : Nat → Nat → Nat → ClientResult :=
  fun addr _ _ => if addr = 0x100 then .raise else .ok [7]

/-- Witness for C6: after the update with the failing first group, the cache
entry of that group's member is unchanged. -/
theorem c6_failed_group_skipped_witness :
    dictFind (SolaredgeDevice.update [c6regA, c6regB] c6cache c6client 1) (some "a") =
      dictFind c6cache (some "a") :=
  (c6_failed_group_skipped [c6regA, c6regB] c6cache c6client 1 (by decide)).1
    [c6regA] (by decide) (by decide) c6regA (by decide)

/-- Claim C7: when every group read of the cycle succeeds and the prior
cache only holds keys of the device's registers (as any cache produced by
earlier cycles over the same immutable register map does), the updated
cache binds exactly what this cycle decoded: every lookup agrees with the
freshly decoded data and the key sets coincide, so no entry from a previous
cycle survives. -/
theorem c7_cache_fully_overwritten (regs : List HoldingRegister) (cache : Cache)
    (client : Nat → Nat → Nat → ClientResult) (devId : Nat)
    (hsub : ∀ k, k ∈ dkeys cache → k ∈ regs.map (fun r => r.key))
    (hok : ∀ g ∈ group_registers regs 120,
      (client (groupStart g) (groupCount g) devId).failed = false) :
    (∀ k, dictFind (SolaredgeDevice.update regs cache client devId) k =
      dictFind (SolaredgeDevice.read_groups regs client devId) k) ∧
    (∀ k, k ∈ dkeys (SolaredgeDevice.update regs cache client devId) ↔
      k ∈ dkeys (SolaredgeDevice.read_groups regs client devId)) := by
  have hcover : ∀ k, k ∈ regs.map (fun r => r.key) →
      k ∈ dkeys (SolaredgeDevice.read_groups regs client devId) := by
    intro k hk
    have hkflat : k ∈ (group_registers regs 120).flatten.map (fun r => r.key) := by
      rw [group_registers_flatten]
      exact ((sortByAddress_perm regs).map (fun r => r.key)).mem_iff.mpr hk
    rcases List.mem_map.mp hkflat with ⟨r, hrf, hrk⟩
    rcases List.mem_flatten.mp hrf with ⟨g, hg, hrg⟩
    rw [SolaredgeDevice.read_groups, mem_dkeys_readGroupsLoop]
    exact Or.inr ⟨g, hg, hok g hg, List.mem_map.mpr ⟨r, hrg, hrk⟩⟩
  have hndK : (dkeys (SolaredgeDevice.read_groups regs client devId)).Nodup :=
    nodup_dkeys_readGroupsLoop client devId _ [] (by simp [dkeys])
  have hmain : ∀ k, dictFind (SolaredgeDevice.update regs cache client devId) k =
      dictFind (SolaredgeDevice.read_groups regs client devId) k := by
    intro k
    by_cases hk : k ∈ dkeys (SolaredgeDevice.read_groups regs client devId)
    · rcases List.mem_map.mp hk with ⟨p, hp, hpk⟩
      have hpmem : (k, p.2) ∈ SolaredgeDevice.read_groups regs client devId := by
        obtain ⟨p1, p2⟩ := p
        simp only at hpk
        rw [← hpk]
        exact hp
      rw [SolaredgeDevice.update, dictUpdate,
        dictFind_insertAll_mem _ _ _ _ hndK hpmem,
        dictFind_eq_of_mem_nodup _ _ _ hndK hpmem]
    · have hdec : dictFind (SolaredgeDevice.read_groups regs client devId) k = none :=
        (dictFind_eq_none_iff _ _).mpr hk
      have hcache : dictFind cache k = none := by
        rw [dictFind_eq_none_iff]
        intro hc
        exact hk (hcover k (hsub k hc))
      rw [SolaredgeDevice.update, dictUpdate,
        dictFind_insertAll_not_mem _ _ _ hk, hcache, hdec]
  refine ⟨hmain, fun k => ?_⟩
  constructor
  · intro hk
    by_contra hk'
    have := (dictFind_eq_none_iff _ k).mpr hk'
    rw [← hmain] at this
    exact ((dictFind_eq_none_iff _ k).mp this) hk
  · intro hk
    by_contra hk'
    have := (dictFind_eq_none_iff _ k).mpr hk'
    rw [hmain] at this
    exact ((dictFind_eq_none_iff _ k).mp this) hk

/-- Register of the C7 witness instance. -/
def c7reg : HoldingRegister := ⟨0x100, .uint16, 1, "big", none, none, some "a", none⟩

/-- Prior-cycle cache of the C7 witness instance. -/
def c7cache : Cache := [(some "a", some (.intVal 1))]

/-- Client whose reads always succeed with the single word 5. -/
def c7client : Nat → Nat → Nat → ClientResult := fun _ _ _ => .ok [5]

/-- Witness for C7 at a one-register map with a fully successful read. -/
theorem c7_cache_fully_overwritten_witness :
    dictFind (SolaredgeDevice.update [c7reg] c7cache c7client 1) (some "a") =
      dictFind (SolaredgeDevice.read_groups [c7reg] c7client 1) (some "a") :=
  (c7_cache_fully_overwritten [c7reg] c7cache c7client 1 (by decide) (by decide)).1
    (some "a")

/-- Claim C8 (code bug): the spec's implicit scale-factor link `K ↦ K+"_sf"`
is what `_init_registers` establishes, but no constructor ever calls it —
immediately after `SolaredgeInverter` construction the register
`i_ac_current` has `sf_key = None` although `i_ac_current_sf` exists in the
same map, while applying the never-invoked `_init_registers` would set
exactly the claimed link. -/
theorem c8_autolink_not_established_at_construction :
    (findReg inverterRegisters "i_ac_current").map (fun r => r.sf_key) = some none ∧
    inverterRegisters.any (fun q => q.1 == "i_ac_current_sf") = true ∧
    (findReg (init_registers inverterRegisters) "i_ac_current").map
        (fun r => r.sf_key) = some (some "i_ac_current_sf") :=
  ⟨by decide, by decide, by decide⟩

/-- Claim C9: the reporting loop of `main.py` prints exactly the register
items whose key does not end in `"_sf"` — every non-scale-factor descriptor
is included and every scale-factor descriptor is excluded (shown in general
and on the inverter map). -/
theorem c9_report_filters_scale_factors :
    (∀ (regs : List (String × HoldingRegister)) (p : String × HoldingRegister),
      p ∈ reportItems regs ↔ p ∈ regs ∧ ¬ strEndsWith p.1 "_sf") ∧
    "i_ac_current" ∈ (reportItems inverterRegisters).map (fun p => p.1) ∧
    "i_ac_current_sf" ∉ (reportItems inverterRegisters).map (fun p => p.1) := by
  refine ⟨?_, by decide, by decide⟩
  intro regs p
  simp [reportItems, List.mem_filter]

/-- Claim C10: immediately after `SolaredgeInverter` construction every
register of the map has `key = None` and `sf_key = None` (no constructor
runs the key-assignment step), so every `raw_value` lookup reads the cache
under the `None` key. -/
theorem c10_register_keys_none_after_construction :
    (∀ p, p ∈ inverterRegisters → p.2.key = none ∧ p.2.sf_key = none) ∧
    (∀ p, p ∈ inverterRegisters → ∀ cache : Cache,
      p.2.raw_value cache = cacheGet cache none) := by
  have h1 : ∀ p, p ∈ inverterRegisters → p.2.key = none ∧ p.2.sf_key = none := by
    decide
  refine ⟨h1, fun p hp cache => ?_⟩
  rw [HoldingRegister.raw_value, (h1 p hp).1]

/-- Witness for C10 at the first register of the inverter map. -/
theorem c10_register_keys_none_witness :
    (⟨0x9C44, .strType, 16, "big", some "Manufacturer", none, none, none⟩ :
        HoldingRegister).key = none ∧
    (⟨0x9C44, .strType, 16, "big", some "Manufacturer", none, none, none⟩ :
        HoldingRegister).sf_key = none :=
  c10_register_keys_none_after_construction.1
    ("c_manufacturer", ⟨0x9C44, .strType, 16, "big", some "Manufacturer", none, none, none⟩)
    (by decide)
